import Mathlib

/-!
Verification of the ratings-generation core of the `dead` repository
(`scripts/generate_ratings.py`), shallowly embedded in Lean 4.

Python strings are modelled as `String` / `List Char`, Python floats as `ℚ`
(the constants involved are all exactly representable), Python `None` as
`Option.none`, and Python regular expressions as explicit shape checks over
character lists.
-/

namespace Dead

/-! ### String helpers (models of Python `in`, `split`, `zfill`, `upper`) -/

/-- `isPrefixList sub l` is true when `sub` is an initial segment of `l`. -/
def isPrefixList : List Char → List Char → Bool
  | [], _ => true
  | _ :: _, [] => false
  | c :: cs, d :: ds => c == d && isPrefixList cs ds

/-- `containsSeq sub hay` models Python `sub in hay` (contiguous substring). -/
def containsSeq (sub : List Char) : List Char → Bool
  | [] => isPrefixList sub []
  | c :: t => isPrefixList sub (c :: t) || containsSeq sub t

/-- Substring test on `String`s: models Python `sub in hay`. -/
def strContains (hay sub : String) : Bool :=
  containsSeq sub.data hay.data

/-- `takeBefore c l` models Python `s.split(c)[0]`: everything before the
first occurrence of `c` (the whole list when `c` is absent). -/
def takeBefore (c : Char) : List Char → List Char
  | [] => []
  | x :: xs => if x == c then [] else x :: takeBefore c xs

/-- `splitOnChar c l` models Python `s.split(c)`:
`splitOnChar '-' "a-b".data = ["a".data, "b".data]`, and the split of the
empty list is `[[]]`. -/
def splitOnChar (c : Char) : List Char → List (List Char)
  | [] => [[]]
  | x :: xs =>
    if x == c then [] :: splitOnChar c xs
    else
      match splitOnChar c xs with
      | [] => [[x]]
      | p :: ps => (x :: p) :: ps

/-- Inverse of `splitOnChar`: rejoin the parts with the separator. -/
def joinParts (c : Char) : List (List Char) → List Char
  | [] => []
  | [p] => p
  | p :: ps => p ++ c :: joinParts c ps

/-- `zfill2 l` models Python `s.zfill(2)`: pad on the left with `'0'` to
width 2 (longer inputs are unchanged). -/
def zfill2 (l : List Char) : List Char :=
  if 2 ≤ l.length then l else List.replicate (2 - l.length) '0' ++ l

/-- ASCII uppercase of a character list, modelling Python `str.upper()` on
the ASCII inputs this script deals with. -/
def upperList (l : List Char) : List Char :=
  l.map Char.toUpper

/-! ### Date Normalizer (`normalize_date`, generate_ratings.py lines 91-123) -/

/-- All characters are ASCII digits. -/
def allDigits (l : List Char) : Bool :=
  l.all Char.isDigit

/-- Model of the regex `^\d{4}-\d{2}-\d{2}$`. -/
def reYYYYMMDD (l : List Char) : Bool :=
  match l with
  | [a, b, c, d, e, f, g, h, i, j] =>
    allDigits [a, b, c, d] && e == '-' && allDigits [f, g] && h == '-' &&
      allDigits [i, j]
  | _ => false

/-- Shape condition on the three dash-separated groups for the regex
`^\d{4}-\d{1,2}-\d{1,2}$` (digits contain no dash, so the regex matches
exactly when the dash-split has three groups of these shapes). -/
def ymdParts (p1 p2 p3 : List Char) : Bool :=
  p1.length == 4 && allDigits p1 &&
    1 ≤ p2.length && p2.length ≤ 2 && allDigits p2 &&
    1 ≤ p3.length && p3.length ≤ 2 && allDigits p3

/-- Model of the regex `^\d{4}-\d{1,2}-\d{1,2}$` on a character list. -/
def reYMD (l : List Char) : Bool :=
  match splitOnChar '-' l with
  | [p1, p2, p3] => ymdParts p1 p2 p3
  | _ => false

/-- Shape condition on the three slash-separated groups for the regex
`^\d{1,2}/\d{1,2}/\d{4}$`. -/
def mdyParts (q1 q2 q3 : List Char) : Bool :=
  1 ≤ q1.length && q1.length ≤ 2 && allDigits q1 &&
    1 ≤ q2.length && q2.length ≤ 2 && allDigits q2 &&
    q3.length == 4 && allDigits q3

/-- Model of the regex `^\d{1,2}/\d{1,2}/\d{4}$` on a character list. -/
def reMDY (l : List Char) : Bool :=
  match splitOnChar '/' l with
  | [q1, q2, q3] => mdyParts q1 q2 q3
  | _ => false

/-- The `MM/DD/YYYY` branch of `normalize_date`, reordering to
`YYYY-MM-DD` with zero padding; `none` models the unrecognized case. -/
def normalizeSlash (t : List Char) : Option String :=
  match splitOnChar '/' t with
  | [q1, q2, q3] =>
    if mdyParts q1 q2 q3 then
      some ⟨q3 ++ '-' :: zfill2 q1 ++ '-' :: zfill2 q2⟩
    else none
  | _ => none

/-- The shape dispatch of `normalize_date` after the time component has
been stripped: already-normalized dates pass through, `YYYY-M-D` is
zero-padded, `MM/DD/YYYY` is reordered, anything else is unrecognized. -/
def normalizeCore (t : List Char) : Option String :=
  if reYYYYMMDD t then some ⟨t⟩
  else
    match splitOnChar '-' t with
    | [p1, p2, p3] =>
      if ymdParts p1 p2 p3 then
        some ⟨p1 ++ '-' :: zfill2 p2 ++ '-' :: zfill2 p3⟩
      else normalizeSlash t
    | _ => normalizeSlash t

/-- Model of `normalize_date` (generate_ratings.py lines 91-123).
Returns `none` where Python returns `None` (empty input, or an
unrecognized shape); first drops everything from the first `'T'` on,
modelling `date_str.split('T')[0]`. -/
def normalize_date (s : String) : Option String :=
  if s.data = [] then none
  else normalizeCore (takeBefore 'T' s.data)

/-! ### Source Classifier (`extract_source_type`, lines 125-147) -/

/-- Model of `extract_source_type`: the two fields joined by a single
space (Python `f"{title} {description}"`), uppercased, then tested in the
fixed priority order. -/
def extract_source_type (title description : String) : String :=
  let text : List Char := upperList (title.data ++ ' ' :: description.data)
  if containsSeq "SBD".data text || containsSeq "SOUNDBOARD".data text then "SBD"
  else if containsSeq "MATRIX".data text then "MATRIX"
  else if containsSeq "AUD".data text || containsSeq "AUDIENCE".data text then "AUD"
  else if containsSeq "FM".data text || containsSeq "BROADCAST".data text then "FM"
  else if containsSeq "REMASTER".data text then "REMASTER"
  else "UNKNOWN"

/-- Reference classifier following the claim's words literally: the plain
concatenation of the two fields (no separator), uppercased, then the same
fixed priority order. -/
def classifyRefConcat (title description : String) : String :=
  let text : List Char := upperList (title.data ++ description.data)
  if containsSeq "SBD".data text || containsSeq "SOUNDBOARD".data text then "SBD"
  else if containsSeq "MATRIX".data text then "MATRIX"
  else if containsSeq "AUD".data text || containsSeq "AUDIENCE".data text then "AUD"
  else if containsSeq "FM".data text || containsSeq "BROADCAST".data text then "FM"
  else if containsSeq "REMASTER".data text then "REMASTER"
  else "UNKNOWN"

/-- Reference classifier with the amended reading: the two fields joined
by a single space, uppercased, then the fixed priority order. -/
def classifyRefSpace (title description : String) : String :=
  let text : List Char := upperList (title.data ++ ' ' :: description.data)
  if containsSeq "SBD".data text || containsSeq "SOUNDBOARD".data text then "SBD"
  else if containsSeq "MATRIX".data text then "MATRIX"
  else if containsSeq "AUD".data text || containsSeq "AUDIENCE".data text then "AUD"
  else if containsSeq "FM".data text || containsSeq "BROADCAST".data text then "FM"
  else if containsSeq "REMASTER".data text then "REMASTER"
  else "UNKNOWN"

/-! ### Recording Rating Calculator (`compute_recording_rating`, lines 228-252) -/

/-- Model of the `ReviewData` dataclass. -/
structure ReviewData where
  stars : ℚ
  review_text : String
  date : String
deriving DecidableEq, Repr

/-- Model of `self.source_weights.get(source_type, 0.5)`: the fixed weight
table of the generator with default `0.5`. -/
def sourceWeight (source_type : String) : ℚ :=
  if source_type = "SBD" then 1
  else if source_type = "MATRIX" then 9/10
  else if source_type = "AUD" then 7/10
  else if source_type = "FM" then 8/10
  else if source_type = "REMASTER" then 1
  else 1/2

/-- Model of `compute_recording_rating` (lines 228-252): filter to reviews
with `stars >= 1.0`, average, weight by source type, damp by review-count
confidence. -/
def compute_recording_rating (reviews : List ReviewData) (source_type : String) : ℚ :=
  if reviews = [] then 0
  else
    let valid := reviews.filter fun r => decide (1 ≤ r.stars)
    if valid = [] then 0
    else
      let avg_rating := (valid.map ReviewData.stars).sum / (valid.length : ℚ)
      let source_weight := sourceWeight source_type
      let weighted_rating := avg_rating * source_weight
      let confidence_factor := min ((valid.length : ℚ) / 5) 1
      weighted_rating * (1/2 + 1/2 * confidence_factor)

/-- Reference score following the words of spec §4.3 step by step. -/
def scoreSpec (reviews : List ReviewData) (source_type : String) : ℚ :=
  if reviews = [] then 0
  else
    let filtered := reviews.filter fun r => decide (1 ≤ r.stars)
    if filtered = [] then 0
    else
      let rawAverage := (filtered.map ReviewData.stars).sum / (filtered.length : ℚ)
      let sw : ℚ :=
        if source_type = "SBD" then 1
        else if source_type = "MATRIX" then 9/10
        else if source_type = "AUD" then 7/10
        else if source_type = "FM" then 8/10
        else if source_type = "REMASTER" then 1
        else 1/2
      let weighted := rawAverage * sw
      let confidenceFactor := min ((filtered.length : ℚ) / 5) 1
      weighted * (1/2 + 1/2 * confidenceFactor)

/-! ### Show Aggregator (`compute_show_rating`, lines 254-308) -/

/-- Model of the `RecordingRating` dataclass. -/
structure RecordingRating where
  identifier : String
  avg_rating : ℚ
  review_count : ℕ
  source_type : String
  reviews : List ReviewData
deriving DecidableEq, Repr

/-- Model of the `ShowRating` dataclass. -/
structure ShowRating where
  date : String
  venue : String
  avg_rating : ℚ
  confidence_score : ℚ
  best_recording_id : String
  recording_ratings : List RecordingRating
deriving DecidableEq, Repr

/-- The composite sort key of `compute_show_rating`, as a lexicographic
4-tuple (Python compares tuples lexicographically and `False < True`). -/
def sortKey (r : RecordingRating) : Bool ×ₗ (Bool ×ₗ (ℚ ×ₗ ℕ)) :=
  toLex (decide (r.source_type = "SBD" ∧ 3 ≤ r.review_count),
    toLex (decide (5 ≤ r.review_count), toLex (r.avg_rating, r.review_count)))

/-- `sortRel a b` holds when `a` may precede `b` in the descending sort:
`sortKey b ≤ sortKey a`. Sorting a list with a stable sort by this relation
models Python `sorted(l, key=..., reverse=True)` (descending, and elements
with equal keys keep their original order). -/
def sortRel (a b : RecordingRating) : Prop :=
  sortKey b ≤ sortKey a

instance : DecidableRel sortRel := fun a b =>
  inferInstanceAs (Decidable (sortKey b ≤ sortKey a))

instance : IsTotal RecordingRating sortRel :=
  ⟨fun a b => (le_total (sortKey b) (sortKey a)).imp id id⟩

instance : IsTrans RecordingRating sortRel :=
  ⟨fun _ _ _ hab hbc => le_trans hbc hab⟩

/-- The show-level weight of one recording:
`review_count * source_weights.get(source_type, 0.5)`. -/
def recWeight (r : RecordingRating) : ℚ :=
  (r.review_count : ℚ) * sourceWeight r.source_type

/-- Model of `compute_show_rating` (lines 254-308). Python returns `None`
on an empty input list (the spec reads this as signalling
`NoRecordingsError`); this is modelled as `Option.none`. The `date` and
`venue` placeholders are embedded as the source has them. -/
def compute_show_rating (recording_ratings : List RecordingRating) : Option ShowRating :=
  match recording_ratings with
  | [] => none
  | x :: xs =>
    let sorted_recordings := List.insertionSort sortRel (x :: xs)
    let best_recording := sorted_recordings.headD x
    let total_weight := ((x :: xs).map recWeight).sum
    let weighted_sum := ((x :: xs).map fun r => r.avg_rating * recWeight r).sum
    let show_avg_rating := if 0 < total_weight then weighted_sum / total_weight else 0
    let total_reviews := ((x :: xs).map RecordingRating.review_count).sum
    let confidence_score := min ((total_reviews : ℚ) / 10) 1
    some
      { date := "1977-05-08"
        venue := "Barton Hall, Cornell University"
        avg_rating := show_avg_rating
        confidence_score := confidence_score
        best_recording_id := best_recording.identifier
        recording_ratings := x :: xs }

/-! ### Dataset pipeline (`generate_ratings_data`, lines 310-439) -/

/-- One collaborator-supplied input record: metadata plus the fetched,
non-empty-stars review list (`fetch_recording_reviews` already dropped
reviews with `stars <= 0`). -/
structure RecordingInput where
  identifier : String
  title : String
  description : String
  date : String
  venue : String
  reviews : List ReviewData
deriving DecidableEq, Repr

/-- The show grouping key `f"{normalized_date}_{venue.replace(' ', '_')}"`. -/
def showKeyOf (nd venue : String) : String :=
  nd ++ "_" ++ ⟨venue.data.map fun c => if c == ' ' then '_' else c⟩

/-- The per-recording stage of `generate_ratings_data` (lines 332-382):
skip when there are no reviews, when the date does not normalize, or when
the computed rating is below `min_rating_for_inclusion = 2.5`; otherwise
produce the show key and the constructed `RecordingRating`. -/
def processRecording (inp : RecordingInput) : Option (String × RecordingRating) :=
  if inp.reviews = [] then none
  else
    match normalize_date inp.date with
    | none => none
    | some nd =>
      let source_type := extract_source_type inp.title inp.description
      let avg_rating := compute_recording_rating inp.reviews source_type
      if avg_rating < 5/2 then none
      else
        some (showKeyOf nd inp.venue,
          { identifier := inp.identifier
            avg_rating := avg_rating
            review_count := inp.reviews.length
            source_type := source_type
            reviews := inp.reviews })

/-- The same stage without the `min_rating_for_inclusion` threshold check:
used to express what the whole per-show recording population is. -/
def processRecordingAll (inp : RecordingInput) : Option (String × RecordingRating) :=
  if inp.reviews = [] then none
  else
    match normalize_date inp.date with
    | none => none
    | some nd =>
      let source_type := extract_source_type inp.title inp.description
      let avg_rating := compute_recording_rating inp.reviews source_type
      some (showKeyOf nd inp.venue,
        { identifier := inp.identifier
          avg_rating := avg_rating
          review_count := inp.reviews.length
          source_type := source_type
          reviews := inp.reviews })

/-- All (show key, recording rating) pairs the pipeline produces. -/
def pipelineRecordings (batch : List RecordingInput) : List (String × RecordingRating) :=
  batch.filterMap processRecording

/-- All (show key, recording rating) pairs without threshold filtering. -/
def pipelineRecordingsAll (batch : List RecordingInput) : List (String × RecordingRating) :=
  batch.filterMap processRecordingAll

/-- The recordings grouped under show key `k` (`shows_data[k]` in the
source, in insertion order). -/
def showGroup (batch : List RecordingInput) (k : String) : List RecordingRating :=
  ((pipelineRecordings batch).filter fun p => p.1 == k).map Prod.snd

/-- The recordings that would be grouped under show key `k` were the
threshold not applied before grouping. -/
def showGroupAll (batch : List RecordingInput) (k : String) : List RecordingRating :=
  ((pipelineRecordingsAll batch).filter fun p => p.1 == k).map Prod.snd

/-- The show rating the pipeline computes for show key `k`. -/
def showRatingAt (batch : List RecordingInput) (k : String) : Option ShowRating :=
  compute_show_rating (showGroup batch k)

/-- The show-level weighted average over a list of recordings
(`sum(avg * weight) / sum(weight)`, `0` on zero total weight). -/
def weightedAvg (l : List RecordingRating) : ℚ :=
  let tw := (l.map recWeight).sum
  if 0 < tw then ((l.map fun r => r.avg_rating * recWeight r).sum) / tw else 0

/-- Reference value following the claim's words: the show-level average
computed over all of the show's recordings, including recordings whose
score fell below the inclusion threshold. -/
def specShowAvgAll (batch : List RecordingInput) (k : String) : ℚ :=
  weightedAvg (showGroupAll batch k)

/-! ### Concrete inputs used in claim instances -/

/-- The SBD recording of the spec's concrete tie-break case. -/
def recA : RecordingRating := ⟨"A", 4, 3, "SBD", []⟩

/-- The AUD recording of the spec's concrete tie-break case. -/
def recB : RecordingRating := ⟨"B", 9/2, 8, "AUD", []⟩

/-- Input whose review list holds one sub-`1.0` review next to two
five-star reviews. -/
def inpC3 : RecordingInput :=
  ⟨"x", "SBD", "", "1977-05-08", "Barton Hall", [⟨1/2, "", ""⟩, ⟨5, "", ""⟩, ⟨5, "", ""⟩]⟩

/-- Input with a single five-star review, used as a witness input. -/
def inpC3w : RecordingInput := ⟨"w", "SBD", "", "1977-05-08", "V", [⟨5, "", ""⟩]⟩

/-- The recording rating the pipeline constructs from `inpC3w`. -/
def rC3w : RecordingRating := ⟨"w", 3, 1, "SBD", [⟨5, "", ""⟩]⟩

/-- A well-reviewed SBD input scoring `5`. -/
def inpHigh : RecordingInput :=
  ⟨"R1", "SBD", "", "1977-05-08", "V",
    [⟨5, "", ""⟩, ⟨5, "", ""⟩, ⟨5, "", ""⟩, ⟨5, "", ""⟩, ⟨5, "", ""⟩]⟩

/-- A sparsely reviewed AUD input of the same show scoring `21/10`,
below the inclusion threshold `5/2`. -/
def inpLow : RecordingInput := ⟨"R2", "AUD", "", "1977-05-08", "V", [⟨5, "", ""⟩]⟩

/-- A two-recording batch for one show, one recording on each side of the
inclusion threshold. -/
def batchC4 : List RecordingInput := [inpHigh, inpLow]

/-- The show key both `inpHigh` and `inpLow` group under. -/
def kC4 : String := "1977-05-08_V"

/-- The recording rating constructed from `inpHigh`. -/
def rHigh : RecordingRating :=
  ⟨"R1", 5, 5, "SBD", [⟨5, "", ""⟩, ⟨5, "", ""⟩, ⟨5, "", ""⟩, ⟨5, "", ""⟩, ⟨5, "", ""⟩]⟩

/-- The recording rating the threshold-free stage constructs from
`inpLow`. -/
def rLow : RecordingRating := ⟨"R2", 21/10, 1, "AUD", [⟨5, "", ""⟩]⟩

/-! ### Shared lemmas -/

/-- Every source weight is positive. -/
lemma sourceWeight_pos (st : String) : 0 < sourceWeight st := by
  unfold sourceWeight
  split_ifs <;> norm_num

/-- Every source weight is at least `1/2`. -/
lemma half_le_sourceWeight (st : String) : 1/2 ≤ sourceWeight st := by
  unfold sourceWeight
  split_ifs <;> norm_num

/-- Every source weight is at most `1`. -/
lemma sourceWeight_le_one (st : String) : sourceWeight st ≤ 1 := by
  unfold sourceWeight
  split_ifs <;> norm_num

/-- A list of reviews whose stars are all at least `1` has stars summing to
at least its length. -/
lemma length_le_sum_stars (l : List ReviewData) (h : ∀ r ∈ l, 1 ≤ r.stars) :
    (l.length : ℚ) ≤ (l.map ReviewData.stars).sum := by
  induction l with
  | nil => simp
  | cons a t ih =>
    have ha := h a (List.mem_cons_self a t)
    have ht := ih fun r hr => h r (List.mem_cons_of_mem a hr)
    simp only [List.map_cons, List.sum_cons, List.length_cons]
    push_cast
    linarith

/-- A list of reviews whose stars are all at most `5` has stars summing to
at most five times its length. -/
lemma sum_stars_le_five (l : List ReviewData) (h : ∀ r ∈ l, r.stars ≤ 5) :
    (l.map ReviewData.stars).sum ≤ 5 * (l.length : ℚ) := by
  induction l with
  | nil => simp
  | cons a t ih =>
    have ha := h a (List.mem_cons_self a t)
    have ht := ih fun r hr => h r (List.mem_cons_of_mem a hr)
    simp only [List.map_cons, List.sum_cons, List.length_cons]
    push_cast
    linarith

/-- A recording with at least one qualifying review gets a strictly
positive score. -/
lemma score_pos (reviews : List ReviewData) (st : String)
    (hf : reviews.filter (fun r => decide (1 ≤ r.stars)) ≠ []) :
    0 < compute_recording_rating reviews st := by
  have hrev : reviews ≠ [] := by
    intro h; rw [h] at hf; simp at hf
  unfold compute_recording_rating
  rw [if_neg hrev, if_neg hf]
  have hn : 0 < ((reviews.filter (fun r => decide (1 ≤ r.stars))).length : ℚ) := by
    have := List.length_pos.mpr hf
    exact_mod_cast this
  have hsum : ((reviews.filter (fun r => decide (1 ≤ r.stars))).length : ℚ) ≤
      ((reviews.filter (fun r => decide (1 ≤ r.stars))).map ReviewData.stars).sum := by
    refine length_le_sum_stars _ fun r hr => ?_
    have := List.of_mem_filter hr
    simpa using this
  have havg : (0:ℚ) <
      ((reviews.filter (fun r => decide (1 ≤ r.stars))).map ReviewData.stars).sum /
        ((reviews.filter (fun r => decide (1 ≤ r.stars))).length : ℚ) := by
    apply div_pos (lt_of_lt_of_le hn hsum) hn
  have hw := sourceWeight_pos st
  have hconf : (0:ℚ) < 1/2 + 1/2 * min (((reviews.filter (fun r => decide (1 ≤ r.stars))).length : ℚ) / 5) 1 := by
    have : (0:ℚ) ≤ min (((reviews.filter (fun r => decide (1 ≤ r.stars))).length : ℚ) / 5) 1 :=
      le_min (by positivity) (by norm_num)
    linarith
  exact mul_pos (mul_pos havg hw) hconf

lemma takeBefore_of_not_mem {c : Char} : ∀ {l : List Char}, c ∉ l → takeBefore c l = l := by
  intro l
  induction l with
  | nil => intro _; rfl
  | cons x xs ih =>
    intro h
    rw [takeBefore, if_neg, ih fun hm => h (List.mem_cons_of_mem x hm)]
    simp only [beq_iff_eq]
    intro hc
    exact h (hc ▸ List.mem_cons_self x xs)

lemma splitOnChar_cons (c x : Char) (xs : List Char) :
    splitOnChar c (x :: xs) =
      if x == c then [] :: splitOnChar c xs
      else
        match splitOnChar c xs with
        | [] => [[x]]
        | p :: ps => (x :: p) :: ps := by
  rw [splitOnChar]

lemma splitOnChar_ne_nil (c : Char) (l : List Char) : splitOnChar c l ≠ [] := by
  cases l with
  | nil => simp [splitOnChar]
  | cons x xs =>
    rw [splitOnChar_cons]
    split
    · simp
    · cases h : splitOnChar c xs <;> simp

lemma joinParts_splitOnChar (c : Char) (l : List Char) : joinParts c (splitOnChar c l) = l := by
  induction l with
  | nil => rfl
  | cons x xs ih =>
    by_cases hx : x = c
    · subst hx
      rw [splitOnChar_cons, if_pos (by simp)]
      cases h : splitOnChar x xs with
      | nil => exact absurd h (splitOnChar_ne_nil x xs)
      | cons p ps =>
        rw [h] at ih
        cases ps with
        | nil => simp only [joinParts] at ih ⊢; simp [ih]
        | cons q qs => simp only [joinParts] at ih ⊢; simp [ih]
    · rw [splitOnChar_cons, if_neg (by simp [hx])]
      cases h : splitOnChar c xs with
      | nil => exact absurd h (splitOnChar_ne_nil c xs)
      | cons p ps =>
        rw [h] at ih
        cases ps with
        | nil => simp only [joinParts] at ih ⊢; simp [ih]
        | cons q qs =>
          simp only [joinParts] at ih ⊢
          simp [ih]

lemma splitOnChar_three {c : Char} {l p1 p2 p3 : List Char}
    (h : splitOnChar c l = [p1, p2, p3]) : l = p1 ++ c :: p2 ++ c :: p3 := by
  have hj := joinParts_splitOnChar c l
  rw [h] at hj
  simpa [joinParts] using hj.symm

lemma splitOnChar_of_not_mem {c : Char} : ∀ {l : List Char}, c ∉ l → splitOnChar c l = [l] := by
  intro l
  induction l with
  | nil => intro _; rfl
  | cons x xs ih =>
    intro h
    rw [splitOnChar_cons,
      if_neg (by simp only [beq_iff_eq]; intro hc; exact h (hc ▸ List.mem_cons_self x xs)),
      ih fun hm => h (List.mem_cons_of_mem x hm)]

lemma allDigits_chars {l : List Char} (h : allDigits l = true) : ∀ x ∈ l, x.isDigit = true := by
  simpa [allDigits, List.all_eq_true] using h

lemma reYYYYMMDD_chars {t : List Char} (h : reYYYYMMDD t = true) :
    (∀ x ∈ t, x.isDigit = true ∨ x = '-') ∧ t.length = 10 := by
  unfold reYYYYMMDD at h
  split at h
  · next a b c d e f g hh i j =>
    simp only [Bool.and_eq_true, beq_iff_eq] at h
    obtain ⟨⟨⟨⟨h1, h2⟩, h3⟩, h4⟩, h5⟩ := h
    have d1 := allDigits_chars h1
    have d2 := allDigits_chars h3
    have d3 := allDigits_chars h5
    subst h2; subst h4
    refine ⟨?_, by simp⟩
    intro x hx
    simp only [List.mem_cons, List.not_mem_nil, or_false] at hx
    rcases hx with rfl | rfl | rfl | rfl | rfl | rfl | rfl | rfl | rfl | rfl
    · exact Or.inl (d1 _ (by simp))
    · exact Or.inl (d1 _ (by simp))
    · exact Or.inl (d1 _ (by simp))
    · exact Or.inl (d1 _ (by simp))
    · exact Or.inr rfl
    · exact Or.inl (d2 _ (by simp))
    · exact Or.inl (d2 _ (by simp))
    · exact Or.inr rfl
    · exact Or.inl (d3 _ (by simp))
    · exact Or.inl (d3 _ (by simp))
  · exact absurd h (by simp)

lemma ymdParts_props {p1 p2 p3 : List Char} (h : ymdParts p1 p2 p3 = true) :
    p1.length = 4 ∧ (∀ x ∈ p1, x.isDigit = true) ∧
      1 ≤ p2.length ∧ p2.length ≤ 2 ∧ (∀ x ∈ p2, x.isDigit = true) ∧
      1 ≤ p3.length ∧ p3.length ≤ 2 ∧ (∀ x ∈ p3, x.isDigit = true) := by
  simp only [ymdParts, Bool.and_eq_true, beq_iff_eq, decide_eq_true_eq] at h
  obtain ⟨⟨⟨⟨⟨⟨⟨h1, h2⟩, h3⟩, h4⟩, h5⟩, h6⟩, h7⟩, h8⟩ := h
  exact ⟨h1, allDigits_chars h2, h3, h4, allDigits_chars h5, h6, h7, allDigits_chars h8⟩

lemma mdyParts_props {q1 q2 q3 : List Char} (h : mdyParts q1 q2 q3 = true) :
    1 ≤ q1.length ∧ q1.length ≤ 2 ∧ (∀ x ∈ q1, x.isDigit = true) ∧
      1 ≤ q2.length ∧ q2.length ≤ 2 ∧ (∀ x ∈ q2, x.isDigit = true) ∧
      q3.length = 4 ∧ (∀ x ∈ q3, x.isDigit = true) := by
  simp only [mdyParts, Bool.and_eq_true, beq_iff_eq, decide_eq_true_eq] at h
  obtain ⟨⟨⟨⟨⟨⟨⟨h1, h2⟩, h3⟩, h4⟩, h5⟩, h6⟩, h7⟩, h8⟩ := h
  exact ⟨h1, h2, allDigits_chars h3, h4, h5, allDigits_chars h6, h7, allDigits_chars h8⟩

lemma normalizeCore_ymd {t p1 p2 p3 : List Char}
    (hsplit : splitOnChar '-' t = [p1, p2, p3]) (hy : ymdParts p1 p2 p3 = true) :
    normalizeCore t = some ⟨p1 ++ '-' :: zfill2 p2 ++ '-' :: zfill2 p3⟩ := by
  have ht := splitOnChar_three hsplit
  by_cases h1 : reYYYYMMDD t = true
  · obtain ⟨hchars, hlen⟩ := reYYYYMMDD_chars h1
    obtain ⟨hl1, _, hl2a, hl2b, _, hl3a, hl3b, _⟩ := ymdParts_props hy
    rw [ht] at hlen
    simp only [List.length_append, List.length_cons] at hlen
    have h2 : p2.length = 2 := by omega
    have h3 : p3.length = 2 := by omega
    have hz2 : zfill2 p2 = p2 := by simp [zfill2, h2]
    have hz3 : zfill2 p3 = p3 := by simp [zfill2, h3]
    rw [normalizeCore, if_pos h1, hz2, hz3, ht]
  · rw [normalizeCore, if_neg h1, hsplit]
    simp [hy]

lemma normalizeCore_mdy {t q1 q2 q3 : List Char}
    (hsplit : splitOnChar '/' t = [q1, q2, q3]) (hm : mdyParts q1 q2 q3 = true) :
    normalizeCore t = some ⟨q3 ++ '-' :: zfill2 q1 ++ '-' :: zfill2 q2⟩ := by
  have ht := splitOnChar_three hsplit
  obtain ⟨_, _, hd1, _, _, hd2, _, hd3⟩ := mdyParts_props hm
  have hchars : ∀ x ∈ t, x.isDigit = true ∨ x = '/' := by
    intro x hx
    rw [ht] at hx
    rcases List.mem_append.mp hx with h | h
    · rcases List.mem_append.mp h with h | h
      · exact Or.inl (hd1 x h)
      rcases List.mem_cons.mp h with rfl | h
      · exact Or.inr rfl
      exact Or.inl (hd2 x h)
    rcases List.mem_cons.mp h with rfl | h
    · exact Or.inr rfl
    exact Or.inl (hd3 x h)
  have hslash : ('/' : Char) ∈ t := by
    rw [ht]; simp
  have h1 : reYYYYMMDD t = false := by
    by_contra hc
    rw [Bool.not_eq_false] at hc
    obtain ⟨hc1, _⟩ := reYYYYMMDD_chars hc
    rcases hc1 '/' hslash with h | h
    · exact absurd h (by decide)
    · exact absurd h (by decide)
  have hdash : ('-' : Char) ∉ t := by
    intro hm2
    rcases hchars '-' hm2 with h | h
    · exact absurd h (by decide)
    · exact absurd h (by decide)
  rw [normalizeCore, if_neg (by simp [h1]), splitOnChar_of_not_mem hdash]
  rw [normalizeSlash, hsplit]
  simp [hm]

lemma normalizeCore_none {t : List Char}
    (h1 : reYYYYMMDD t = false) (h2 : reYMD t = false) (h3 : reMDY t = false) :
    normalizeCore t = none := by
  have hslash : normalizeSlash t = none := by
    rw [normalizeSlash]
    rcases hq : splitOnChar '/' t with _ | ⟨q1, _ | ⟨q2, _ | ⟨q3, _ | ⟨q4, qs⟩⟩⟩⟩
    · rfl
    · rfl
    · rfl
    · rw [reMDY, hq] at h3
      simp only at h3
      simp [h3]
    · rfl
  rw [normalizeCore, if_neg (by simp [h1])]
  rcases hp : splitOnChar '-' t with _ | ⟨p1, _ | ⟨p2, _ | ⟨p3, _ | ⟨p4, ps⟩⟩⟩⟩
  · exact hslash
  · exact hslash
  · exact hslash
  · rw [reYMD, hp] at h2
    simp only at h2
    simp [h2, hslash]
  · exact hslash

lemma normalize_date_id {s : String} (h : reYYYYMMDD s.data = true) :
    normalize_date s = some s := by
  obtain ⟨hchars, hlen⟩ := reYYYYMMDD_chars h
  have hT : ('T' : Char) ∉ s.data := by
    intro hm
    rcases hchars 'T' hm with hd | hd
    · exact absurd hd (by decide)
    · exact absurd hd (by decide)
  have hne : s.data ≠ [] := by
    intro hc
    rw [hc] at hlen
    simp at hlen
  rw [normalize_date, if_neg hne, takeBefore_of_not_mem hT, normalizeCore, if_pos h]

lemma filter_orderedInsert_key (k : Bool ×ₗ (Bool ×ₗ (ℚ ×ₗ ℕ))) (a : RecordingRating) :
    ∀ s : List RecordingRating,
      (s.orderedInsert sortRel a).filter (fun x => decide (sortKey x = k)) =
        ((a :: s).filter fun x => decide (sortKey x = k)) := by
  intro s
  induction s with
  | nil => rfl
  | cons b t ih =>
    by_cases hab : sortRel a b
    · rw [List.orderedInsert, if_pos hab]
    · rw [List.orderedInsert, if_neg hab]
      have hlt : sortKey a < sortKey b := not_le.mp hab
      have hne : sortKey a ≠ sortKey b := ne_of_lt hlt
      by_cases hbk : sortKey b = k
      · have hak : sortKey a ≠ k := fun hc => hne (hc.trans hbk.symm)
        simp [List.filter_cons, hbk, hak, ih]
      · simp [List.filter_cons, hbk, ih]

lemma filter_insertionSort_key (k : Bool ×ₗ (Bool ×ₗ (ℚ ×ₗ ℕ))) :
    ∀ l : List RecordingRating,
      (List.insertionSort sortRel l).filter (fun x => decide (sortKey x = k)) =
        l.filter fun x => decide (sortKey x = k) := by
  intro l
  induction l with
  | nil => rfl
  | cons a t ih =>
    rw [List.insertionSort, filter_orderedInsert_key, List.filter_cons, List.filter_cons]
    by_cases hak : sortKey a = k
    · simp [hak, ih]
    · simp [hak, ih]

lemma procC3 : processRecording inpC3 =
    some ("1977-05-08_Barton_Hall", ⟨"x", 7/2, 3, "SBD", inpC3.reviews⟩) := by
  have hnd : normalize_date "1977-05-08" = some "1977-05-08" := by decide
  have hst : extract_source_type "SBD" "" = "SBD" := by decide
  have hkey : showKeyOf "1977-05-08" "Barton Hall" = "1977-05-08_Barton_Hall" := by decide
  have hscore : compute_recording_rating inpC3.reviews "SBD" = 7/2 := by
    show compute_recording_rating [⟨1/2, "", ""⟩, ⟨5, "", ""⟩, ⟨5, "", ""⟩] "SBD" = 7/2
    norm_num [compute_recording_rating, List.filter, sourceWeight]
    simp
  simp [processRecording, inpC3, hnd, hst, hkey] at hscore ⊢
  rw [hscore]
  norm_num

lemma procC3w : processRecording inpC3w = some ("1977-05-08_V", rC3w) := by
  have hnd : normalize_date "1977-05-08" = some "1977-05-08" := by decide
  have hst : extract_source_type "SBD" "" = "SBD" := by decide
  have hkey : showKeyOf "1977-05-08" "V" = "1977-05-08_V" := by decide
  have hscore : compute_recording_rating inpC3w.reviews "SBD" = 3 := by
    show compute_recording_rating [⟨5, "", ""⟩] "SBD" = 3
    norm_num [compute_recording_rating, List.filter, sourceWeight]
  simp [processRecording, inpC3w, hnd, hst, hkey, rC3w] at hscore ⊢
  rw [hscore]
  norm_num

lemma procHighAll : processRecordingAll inpHigh = some (kC4, rHigh) := by
  have hnd : normalize_date "1977-05-08" = some "1977-05-08" := by decide
  have hst : extract_source_type "SBD" "" = "SBD" := by decide
  have hkey : showKeyOf "1977-05-08" "V" = "1977-05-08_V" := by decide
  have hscore : compute_recording_rating inpHigh.reviews "SBD" = 5 := by
    show compute_recording_rating
      [⟨5, "", ""⟩, ⟨5, "", ""⟩, ⟨5, "", ""⟩, ⟨5, "", ""⟩, ⟨5, "", ""⟩] "SBD" = 5
    norm_num [compute_recording_rating, List.filter, sourceWeight]
    try simp
  simp [processRecordingAll, inpHigh, hnd, hst, hkey, rHigh, kC4] at hscore ⊢
  rw [hscore]

lemma procHigh : processRecording inpHigh = some (kC4, rHigh) := by
  have hnd : normalize_date "1977-05-08" = some "1977-05-08" := by decide
  have hst : extract_source_type "SBD" "" = "SBD" := by decide
  have hkey : showKeyOf "1977-05-08" "V" = "1977-05-08_V" := by decide
  have hscore : compute_recording_rating inpHigh.reviews "SBD" = 5 := by
    show compute_recording_rating
      [⟨5, "", ""⟩, ⟨5, "", ""⟩, ⟨5, "", ""⟩, ⟨5, "", ""⟩, ⟨5, "", ""⟩] "SBD" = 5
    norm_num [compute_recording_rating, List.filter, sourceWeight]
    try simp
  simp [processRecording, inpHigh, hnd, hst, hkey, rHigh, kC4] at hscore ⊢
  rw [hscore]
  norm_num

lemma procLowAll : processRecordingAll inpLow = some (kC4, rLow) := by
  have hnd : normalize_date "1977-05-08" = some "1977-05-08" := by decide
  have hst : extract_source_type "AUD" "" = "AUD" := by decide
  have hkey : showKeyOf "1977-05-08" "V" = "1977-05-08_V" := by decide
  have hscore : compute_recording_rating inpLow.reviews "AUD" = 21/10 := by
    show compute_recording_rating [⟨5, "", ""⟩] "AUD" = 21/10
    norm_num [compute_recording_rating, List.filter, sourceWeight]
    try simp
  simp [processRecordingAll, inpLow, hnd, hst, hkey, rLow, kC4] at hscore ⊢
  rw [hscore]

lemma procLow : processRecording inpLow = none := by
  have hnd : normalize_date "1977-05-08" = some "1977-05-08" := by decide
  have hst : extract_source_type "AUD" "" = "AUD" := by decide
  have hscore : compute_recording_rating inpLow.reviews "AUD" = 21/10 := by
    show compute_recording_rating [⟨5, "", ""⟩] "AUD" = 21/10
    norm_num [compute_recording_rating, List.filter, sourceWeight]
    try simp
  simp [processRecording, inpLow, hnd, hst] at hscore ⊢
  rw [hscore]
  norm_num

lemma pipeC4 : pipelineRecordings batchC4 = [(kC4, rHigh)] := by
  simp [pipelineRecordings, batchC4, List.filterMap_cons, procHigh, procLow]

lemma pipeAllC4 : pipelineRecordingsAll batchC4 = [(kC4, rHigh), (kC4, rLow)] := by
  simp [pipelineRecordingsAll, batchC4, List.filterMap_cons, procHighAll, procLowAll]

lemma groupC4 : showGroup batchC4 kC4 = [rHigh] := by
  unfold showGroup
  rw [pipeC4]
  simp [List.filter]

lemma groupAllC4 : showGroupAll batchC4 kC4 = [rHigh, rLow] := by
  unfold showGroupAll
  rw [pipeAllC4]
  simp [List.filter]

lemma processRecording_eq_bind (inp : RecordingInput) :
    processRecording inp = (processRecordingAll inp).bind
      fun p => if p.2.avg_rating < 5/2 then none else some p := by
  rw [processRecording, processRecordingAll]
  by_cases h : inp.reviews = []
  · simp [h]
  · simp only [if_neg h]
    cases hnd : normalize_date inp.date with
    | none => simp
    | some nd => simp [Option.bind]

lemma pipelineRecordings_eq (batch : List RecordingInput) :
    pipelineRecordings batch =
      (pipelineRecordingsAll batch).filter fun p => decide (5/2 ≤ p.2.avg_rating) := by
  induction batch with
  | nil => rfl
  | cons i bs ih =>
    rw [pipelineRecordings, List.filterMap_cons] at *
    rw [pipelineRecordingsAll, List.filterMap_cons]
    cases hall : processRecordingAll i with
    | none =>
      have hp := processRecording_eq_bind i
      rw [hall] at hp
      simp only [Option.bind] at hp
      rw [hp]
      exact ih
    | some p =>
      have hp := processRecording_eq_bind i
      rw [hall] at hp
      simp only [Option.bind] at hp
      by_cases hth : p.2.avg_rating < 5/2
      · rw [hp, if_pos hth]
        rw [List.filter_cons_of_neg (by simpa using not_le.mpr hth)]
        exact ih
      · rw [hp, if_neg hth]
        rw [List.filter_cons_of_pos (by simpa using not_lt.mp hth)]
        rw [ih]
        rfl

/-! ### Claim theorems -/

/-- Claim C1: for every list of reviews and every source type, the
recording score of `compute_recording_rating` equals the reference
definition of spec §4.3 (`scoreSpec`); in particular, for reviews with
stars 5, 4, 5 and source SBD the score is `56/15 = 3.7333...`. -/
theorem claim_C1 :
    (∀ (reviews : List ReviewData) (st : String),
        compute_recording_rating reviews st = scoreSpec reviews st) ∧
      compute_recording_rating [⟨5, "", ""⟩, ⟨4, "", ""⟩, ⟨5, "", ""⟩] "SBD" = 56/15 := by
  constructor
  · intro reviews st
    rfl
  · simp [compute_recording_rating, sourceWeight, List.filter]
    norm_num

/-- Claim C2: show aggregation on the empty list signals the error case
(modelled as `Option.none`, never a constructed `ShowRating`), while every
non-empty input produces a `ShowRating`. -/
theorem claim_C2 :
    compute_show_rating ([] : List RecordingRating) = none ∧
      ∀ l : List RecordingRating, l ≠ [] → ∃ s, compute_show_rating l = some s := by
  refine ⟨rfl, fun l h => ?_⟩
  match l with
  | [] => exact absurd rfl h
  | x :: xs => exact ⟨_, rfl⟩

/-- Witness for C2 at a concrete one-element input. -/
theorem claim_C2_witness :
    ∃ s, compute_show_rating [⟨"A", 4, 3, "SBD", []⟩] = some s :=
  claim_C2.2 [⟨"A", 4, 3, "SBD", []⟩] (by simp)

/-- Counterexample to claim C6 as stated: the code uppercases the two
fields joined by a space, not their plain concatenation, so on
`("S", "BD")` the code returns `UNKNOWN` while the claim's reference
classifier (plain concatenation) returns `SBD`. -/
theorem claim_C6_counterexample :
    extract_source_type "S" "BD" = "UNKNOWN" ∧
      classifyRefConcat "S" "BD" = "SBD" ∧
      extract_source_type "S" "BD" ≠ classifyRefConcat "S" "BD" := by
  refine ⟨by decide, by decide, by decide⟩

/-- Claim C6 (amended): the classifier is a total pure function that
uppercases the space-separated concatenation of title and description and
returns the first match in the fixed priority order; in particular
`classify("GD SBD FM Broadcast", "") = SBD`. -/
theorem claim_C6 :
    (∀ title description : String,
        extract_source_type title description = classifyRefSpace title description) ∧
      extract_source_type "GD SBD FM Broadcast" "" = "SBD" := by
  exact ⟨fun _ _ => rfl, by decide⟩

/-- Claim C9: the computed recording score is zero exactly when the review
list is empty or every review has stars below `1`. -/
theorem claim_C9 (reviews : List ReviewData) (st : String) :
    compute_recording_rating reviews st = 0 ↔
      reviews = [] ∨ ∀ r ∈ reviews, r.stars < 1 := by
  by_cases hrev : reviews = []
  · subst hrev
    simp [compute_recording_rating]
  constructor
  · intro h0
    by_cases hf : reviews.filter (fun r => decide (1 ≤ r.stars)) = []
    · right
      intro r hr
      by_contra hlt
      push_neg at hlt
      have hmem : r ∈ reviews.filter (fun r => decide (1 ≤ r.stars)) :=
        List.mem_filter.mpr ⟨hr, by simpa using hlt⟩
      rw [hf] at hmem
      simp at hmem
    · exact absurd h0 (ne_of_gt (score_pos reviews st hf))
  · rintro (h | h)
    · exact absurd h hrev
    · have hf : reviews.filter (fun r => decide (1 ≤ r.stars)) = [] :=
        List.filter_eq_nil_iff.mpr fun a ha => by simpa using not_le.mpr (h a ha)
      simp [compute_recording_rating, hrev, hf]

/-- Witness for C9: a list with a single sub-`1` review scores zero. -/
theorem claim_C9_witness :
    compute_recording_rating [⟨1/2, "", ""⟩] "SBD" = 0 :=
  (claim_C9 [⟨1/2, "", ""⟩] "SBD").mpr
    (Or.inr fun r hr => by
      simp only [List.mem_singleton] at hr
      subst hr
      norm_num)

/-- Claim C10: when every review's stars lie in `[1, 5]`, the computed
score lies in `[0, 5]`, and as soon as the review list is non-empty (so at
least one review passes the filter) the score is at least `3/10`. -/
theorem claim_C10 (reviews : List ReviewData) (st : String)
    (h : ∀ r ∈ reviews, 1 ≤ r.stars ∧ r.stars ≤ 5) :
    0 ≤ compute_recording_rating reviews st ∧
      compute_recording_rating reviews st ≤ 5 ∧
      (reviews ≠ [] → 3/10 ≤ compute_recording_rating reviews st) := by
  by_cases hrev : reviews = []
  · subst hrev
    have h0 : compute_recording_rating [] st = 0 := by simp [compute_recording_rating]
    exact ⟨by rw [h0], by rw [h0]; norm_num, fun hc => absurd rfl hc⟩
  · have hfil : reviews.filter (fun r => decide (1 ≤ r.stars)) = reviews :=
      List.filter_eq_self.mpr fun a ha => by simpa using (h a ha).1
    unfold compute_recording_rating
    rw [if_neg hrev, hfil, if_neg hrev]
    have hn0 : (0:ℚ) < (reviews.length : ℚ) := by
      have := List.length_pos.mpr hrev
      exact_mod_cast this
    have hn1 : (1:ℚ) ≤ (reviews.length : ℚ) := by
      have := List.length_pos.mpr hrev
      exact_mod_cast this
    have havg1 : 1 ≤ (reviews.map ReviewData.stars).sum / (reviews.length : ℚ) :=
      (one_le_div hn0).mpr (length_le_sum_stars reviews fun r hr => (h r hr).1)
    have havg5 : (reviews.map ReviewData.stars).sum / (reviews.length : ℚ) ≤ 5 := by
      rw [div_le_iff₀ hn0]
      simpa using sum_stars_le_five reviews fun r hr => (h r hr).2
    have havg0 : 0 ≤ (reviews.map ReviewData.stars).sum / (reviews.length : ℚ) := by linarith
    have hw2 := half_le_sourceWeight st
    have hw1 := sourceWeight_le_one st
    have hw0 : (0:ℚ) ≤ sourceWeight st := le_of_lt (sourceWeight_pos st)
    have hconf1 : min ((reviews.length : ℚ) / 5) 1 ≤ 1 := min_le_right _ _
    have hconf5 : 1/5 ≤ min ((reviews.length : ℚ) / 5) 1 :=
      le_min (by linarith) (by norm_num)
    have hdamp1 : 1/2 + 1/2 * min ((reviews.length : ℚ) / 5) 1 ≤ 1 := by linarith
    have hdamp35 : (3/5 : ℚ) ≤ 1/2 + 1/2 * min ((reviews.length : ℚ) / 5) 1 := by linarith
    have hdamp0 : (0:ℚ) ≤ 1/2 + 1/2 * min ((reviews.length : ℚ) / 5) 1 := by linarith
    refine ⟨by positivity, ?_, fun _ => ?_⟩
    · have h1 : (reviews.map ReviewData.stars).sum / (reviews.length : ℚ) * sourceWeight st ≤ 5 * 1 :=
        mul_le_mul havg5 hw1 hw0 (by norm_num)
      have h2 : (reviews.map ReviewData.stars).sum / (reviews.length : ℚ) * sourceWeight st *
          (1/2 + 1/2 * min ((reviews.length : ℚ) / 5) 1) ≤ 5 * 1 * 1 :=
        mul_le_mul h1 hdamp1 hdamp0 (by norm_num)
      linarith
    · have h1 : (1:ℚ) * (1/2) ≤
          (reviews.map ReviewData.stars).sum / (reviews.length : ℚ) * sourceWeight st :=
        mul_le_mul havg1 hw2 (by norm_num) havg0
      have h2 : (1:ℚ) * (1/2) * (3/5) ≤
          (reviews.map ReviewData.stars).sum / (reviews.length : ℚ) * sourceWeight st *
            (1/2 + 1/2 * min ((reviews.length : ℚ) / 5) 1) :=
        mul_le_mul h1 hdamp35 (by norm_num) (mul_nonneg havg0 hw0)
      linarith

/-- Witness for C10 at one five-star review with source `AUD`. -/
theorem claim_C10_witness :
    0 ≤ compute_recording_rating [⟨5, "", ""⟩] "AUD" ∧
      compute_recording_rating [⟨5, "", ""⟩] "AUD" ≤ 5 ∧
      (([⟨5, "", ""⟩] : List ReviewData) ≠ [] →
        3/10 ≤ compute_recording_rating [⟨5, "", ""⟩] "AUD") :=
  claim_C10 [⟨5, "", ""⟩] "AUD" fun r hr => by
    simp only [List.mem_singleton] at hr
    subst hr
    norm_num

/-- Claim C8: for a fixed source type, appending one qualifying review
whose stars exceed the current raw average of the qualifying reviews never
decreases the computed score, while the qualifying count is below the
5-review saturation point. -/
theorem claim_C8 (reviews : List ReviewData) (st : String) (nr : ReviewData)
    (hq : 1 ≤ nr.stars)
    (hne : reviews.filter (fun r => decide (1 ≤ r.stars)) ≠ [])
    (hcount : (reviews.filter (fun r => decide (1 ≤ r.stars))).length < 5)
    (habove : ((reviews.filter (fun r => decide (1 ≤ r.stars))).map ReviewData.stars).sum /
        ((reviews.filter (fun r => decide (1 ≤ r.stars))).length : ℚ) < nr.stars) :
    compute_recording_rating reviews st ≤ compute_recording_rating (reviews ++ [nr]) st := by
  have hrev : reviews ≠ [] := by
    intro hc; rw [hc] at hne; simp at hne
  have hrev2 : reviews ++ [nr] ≠ [] := by simp
  have happend : (reviews ++ [nr]).filter (fun r => decide (1 ≤ r.stars)) =
      reviews.filter (fun r => decide (1 ≤ r.stars)) ++ [nr] := by
    rw [List.filter_append]
    congr 1
    simp [List.filter, hq]
  have hne2 : (reviews ++ [nr]).filter (fun r => decide (1 ≤ r.stars)) ≠ [] := by
    rw [happend]; simp
  have hnpos : 0 < (reviews.filter (fun r => decide (1 ≤ r.stars))).length :=
    List.length_pos.mpr hne
  have hnQ : (0:ℚ) < ((reviews.filter (fun r => decide (1 ≤ r.stars))).length : ℚ) := by
    exact_mod_cast hnpos
  have hn5 : ((reviews.filter (fun r => decide (1 ≤ r.stars))).length : ℚ) ≤ 5 := by
    exact_mod_cast hcount.le
  have hn5' : ((reviews.filter (fun r => decide (1 ≤ r.stars))).length : ℚ) + 1 ≤ 5 := by
    have : (reviews.filter (fun r => decide (1 ≤ r.stars))).length + 1 ≤ 5 := hcount
    exact_mod_cast this
  have hmin1 : min (((reviews.filter (fun r => decide (1 ≤ r.stars))).length : ℚ) / 5) 1 =
      ((reviews.filter (fun r => decide (1 ≤ r.stars))).length : ℚ) / 5 :=
    min_eq_left ((div_le_one (by norm_num)).mpr hn5)
  have hmin2 : min ((((reviews.filter (fun r => decide (1 ≤ r.stars))).length : ℚ) + 1) / 5) 1 =
      (((reviews.filter (fun r => decide (1 ≤ r.stars))).length : ℚ) + 1) / 5 :=
    min_eq_left ((div_le_one (by norm_num)).mpr hn5')
  have hS_ge : ((reviews.filter (fun r => decide (1 ≤ r.stars))).length : ℚ) ≤
      ((reviews.filter (fun r => decide (1 ≤ r.stars))).map ReviewData.stars).sum :=
    length_le_sum_stars _ fun r hr => by simpa using List.of_mem_filter hr
  have havgpos : 0 < ((reviews.filter (fun r => decide (1 ≤ r.stars))).map ReviewData.stars).sum /
      ((reviews.filter (fun r => decide (1 ≤ r.stars))).length : ℚ) :=
    div_pos (lt_of_lt_of_le hnQ hS_ge) hnQ
  have hSlt : ((reviews.filter (fun r => decide (1 ≤ r.stars))).map ReviewData.stars).sum <
      nr.stars * ((reviews.filter (fun r => decide (1 ≤ r.stars))).length : ℚ) :=
    (div_lt_iff₀ hnQ).mp habove
  have havglt : ((reviews.filter (fun r => decide (1 ≤ r.stars))).map ReviewData.stars).sum /
      ((reviews.filter (fun r => decide (1 ≤ r.stars))).length : ℚ) <
      (((reviews.filter (fun r => decide (1 ≤ r.stars))).map ReviewData.stars).sum + nr.stars) /
        (((reviews.filter (fun r => decide (1 ≤ r.stars))).length : ℚ) + 1) := by
    rw [div_lt_div_iff₀ hnQ (by positivity)]
    nlinarith [hSlt]
  have hdamp_lt : 1/2 + 1/2 * (((reviews.filter (fun r => decide (1 ≤ r.stars))).length : ℚ) / 5) <
      1/2 + 1/2 * ((((reviews.filter (fun r => decide (1 ≤ r.stars))).length : ℚ) + 1) / 5) := by
    linarith
  have hdamp_pos : (0:ℚ) <
      1/2 + 1/2 * (((reviews.filter (fun r => decide (1 ≤ r.stars))).length : ℚ) / 5) := by
    positivity
  unfold compute_recording_rating
  rw [if_neg hrev, if_neg hrev2, if_neg hne, happend, if_neg (by rw [← happend]; exact hne2)]
  rw [hmin1]
  have hlen : ((reviews.filter (fun r => decide (1 ≤ r.stars)) ++ [nr]).length : ℚ) =
      ((reviews.filter (fun r => decide (1 ≤ r.stars))).length : ℚ) + 1 := by
    push_cast [List.length_append, List.length_singleton]
    ring
  have hsum : ((reviews.filter (fun r => decide (1 ≤ r.stars)) ++ [nr]).map ReviewData.stars).sum =
      ((reviews.filter (fun r => decide (1 ≤ r.stars))).map ReviewData.stars).sum + nr.stars := by
    simp
  rw [hlen, hsum, hmin2]
  have key : ((reviews.filter (fun r => decide (1 ≤ r.stars))).map ReviewData.stars).sum /
        ((reviews.filter (fun r => decide (1 ≤ r.stars))).length : ℚ) *
        (1/2 + 1/2 * (((reviews.filter (fun r => decide (1 ≤ r.stars))).length : ℚ) / 5)) ≤
      (((reviews.filter (fun r => decide (1 ≤ r.stars))).map ReviewData.stars).sum + nr.stars) /
          (((reviews.filter (fun r => decide (1 ≤ r.stars))).length : ℚ) + 1) *
        (1/2 + 1/2 * ((((reviews.filter (fun r => decide (1 ≤ r.stars))).length : ℚ) + 1) / 5)) :=
    mul_le_mul havglt.le hdamp_lt.le hdamp_pos.le (le_of_lt (lt_trans havgpos havglt))
  have key2 := mul_le_mul_of_nonneg_right key (le_of_lt (sourceWeight_pos st))
  calc ((reviews.filter (fun r => decide (1 ≤ r.stars))).map ReviewData.stars).sum /
        ((reviews.filter (fun r => decide (1 ≤ r.stars))).length : ℚ) * sourceWeight st *
        (1/2 + 1/2 * (((reviews.filter (fun r => decide (1 ≤ r.stars))).length : ℚ) / 5)) =
      ((reviews.filter (fun r => decide (1 ≤ r.stars))).map ReviewData.stars).sum /
        ((reviews.filter (fun r => decide (1 ≤ r.stars))).length : ℚ) *
        (1/2 + 1/2 * (((reviews.filter (fun r => decide (1 ≤ r.stars))).length : ℚ) / 5)) *
        sourceWeight st := by ring
    _ ≤ (((reviews.filter (fun r => decide (1 ≤ r.stars))).map ReviewData.stars).sum + nr.stars) /
          (((reviews.filter (fun r => decide (1 ≤ r.stars))).length : ℚ) + 1) *
          (1/2 + 1/2 * ((((reviews.filter (fun r => decide (1 ≤ r.stars))).length : ℚ) + 1) / 5)) *
          sourceWeight st := key2
    _ = (((reviews.filter (fun r => decide (1 ≤ r.stars))).map ReviewData.stars).sum + nr.stars) /
          (((reviews.filter (fun r => decide (1 ≤ r.stars))).length : ℚ) + 1) * sourceWeight st *
          (1/2 + 1/2 * ((((reviews.filter (fun r => decide (1 ≤ r.stars))).length : ℚ) + 1) / 5)) := by
        ring

/-- Witness for C8: appending a five-star review to a single three-star
review with source SBD does not decrease the score. -/
theorem claim_C8_witness :
    compute_recording_rating [⟨3, "", ""⟩] "SBD" ≤
      compute_recording_rating ([⟨3, "", ""⟩] ++ [⟨5, "", ""⟩]) "SBD" :=
  claim_C8 [⟨3, "", ""⟩] "SBD" ⟨5, "", ""⟩ (by norm_num)
    (by norm_num [List.filter]) (by norm_num [List.filter]) (by norm_num [List.filter])

/-- Claim C7: date normalization first strips everything from a literal
`'T'`; an input already shaped `YYYY-MM-DD` is returned unchanged; a
(stripped) input shaped `YYYY-M-D` gets month and day zero-padded to width
2; a (stripped) input shaped `MM/DD/YYYY` is reordered to `YYYY-MM-DD`
with zero padding; every other shape yields the unrecognized signal
(`none`); plus the three concrete examples of the spec. -/
theorem claim_C7 :
    (∀ s : String, s ≠ "" → normalize_date s = normalizeCore (takeBefore 'T' s.data)) ∧
    (∀ s : String, reYYYYMMDD s.data = true → normalize_date s = some s) ∧
    (∀ t p1 p2 p3 : List Char, splitOnChar '-' t = [p1, p2, p3] →
        ymdParts p1 p2 p3 = true →
        normalizeCore t = some ⟨p1 ++ '-' :: zfill2 p2 ++ '-' :: zfill2 p3⟩) ∧
    (∀ t q1 q2 q3 : List Char, splitOnChar '/' t = [q1, q2, q3] →
        mdyParts q1 q2 q3 = true →
        normalizeCore t = some ⟨q3 ++ '-' :: zfill2 q1 ++ '-' :: zfill2 q2⟩) ∧
    (∀ t : List Char, reYYYYMMDD t = false → reYMD t = false → reMDY t = false →
        normalizeCore t = none) ∧
    normalize_date "" = none ∧
    normalize_date "1977-5-8" = some "1977-05-08" ∧
    normalize_date "05/08/1977" = some "1977-05-08" ∧
    normalize_date "1977-05-08T00:00:00Z" = some "1977-05-08" := by
  refine ⟨?_, fun s h => normalize_date_id h,
    fun t p1 p2 p3 h1 h2 => normalizeCore_ymd h1 h2,
    fun t q1 q2 q3 h1 h2 => normalizeCore_mdy h1 h2,
    fun t h1 h2 h3 => normalizeCore_none h1 h2 h3,
    by decide, by decide, by decide, by decide⟩
  intro s hs
  have hne : s.data ≠ [] := by
    intro hc
    apply hs
    cases s with
    | mk d =>
      simp only at hc
      subst hc
      rfl
  rw [normalize_date, if_neg hne]

/-- Witness for C7: an already-normalized date is returned unchanged. -/
theorem claim_C7_witness : normalize_date "1977-05-08" = some "1977-05-08" :=
  claim_C7.2.1 "1977-05-08" (by decide)

/-- Claim C5: best-recording selection stably sorts descending by the
composite key (SBD with at least 3 reviews, at least 5 reviews, average
rating, review count): the sorted list is a permutation of the input,
descending in the key, key-equal elements keep their input order, and
`best_recording_id` is the head's identifier; in the spec's concrete case
`A{SBD,3,4.0}` beats `B{AUD,8,4.5}`. -/
theorem claim_C5 (l : List RecordingRating) (hl : l ≠ []) :
    (List.insertionSort sortRel l).Perm l ∧
    List.Sorted sortRel (List.insertionSort sortRel l) ∧
    (∀ k : Bool ×ₗ (Bool ×ₗ (ℚ ×ₗ ℕ)),
      (List.insertionSort sortRel l).filter (fun x => decide (sortKey x = k)) =
        l.filter fun x => decide (sortKey x = k)) ∧
    (∀ (s : ShowRating) (b : RecordingRating), compute_show_rating l = some s →
      (List.insertionSort sortRel l).head? = some b →
        s.best_recording_id = b.identifier) ∧
    (compute_show_rating [recA, recB]).map ShowRating.best_recording_id = some "A" := by
  refine ⟨List.perm_insertionSort sortRel l, List.sorted_insertionSort sortRel l,
    fun k => filter_insertionSort_key k l, ?_, ?_⟩
  · intro s b hs hb
    match l with
    | x :: xs =>
      rw [compute_show_rating] at hs
      cases hsort : List.insertionSort sortRel (x :: xs) with
      | nil => rw [hsort] at hb; exact absurd hb (by simp)
      | cons c cs =>
        rw [hsort] at hs hb
        simp only [List.head?] at hb
        injection hb with hb
        simp only [List.headD] at hs
        injection hs with hs
        rw [← hs, ← hb]
  · simp [compute_show_rating, List.insertionSort, List.orderedInsert, sortRel, sortKey,
      Prod.Lex.le_iff, recA, recB]

/-- Witness for C5 at the spec's concrete two-recording input. -/
theorem claim_C5_witness :
    (List.insertionSort sortRel [recA, recB]).Perm [recA, recB] :=
  (claim_C5 [recA, recB] (by simp)).1

/-- Counterexample to claim C3 as stated: on `inpC3` (reviews with stars
`1/2`, `5`, `5`) the constructed `RecordingRating` carries
`review_count = 3`, the full review-list length, while only `2` reviews
pass the `stars >= 1.0` filter. -/
theorem claim_C3_counterexample :
    (processRecording inpC3).map (fun p => p.2.review_count) = some 3 ∧
      (inpC3.reviews.filter fun r => decide (1 ≤ r.stars)).length = 2 ∧
      (3 : ℕ) ≠ 2 := by
  refine ⟨?_, ?_, by decide⟩
  · rw [procC3]
    rfl
  · show (([⟨1/2, "", ""⟩, ⟨5, "", ""⟩, ⟨5, "", ""⟩] : List ReviewData).filter
        fun r => decide (1 ≤ r.stars)).length = 2
    norm_num [List.filter]

/-- Claim C3 (amended): every constructed `RecordingRating` carries
`reviewCount` equal to the total number of input reviews (the upstream
list, already stripped of `stars <= 0` entries), which coincides with the
`stars >= 1.0`-filtered count exactly when every review has
`stars >= 1.0`. -/
theorem claim_C3 (inp : RecordingInput) (k : String) (r : RecordingRating)
    (h : processRecording inp = some (k, r)) :
    r.review_count = inp.reviews.length ∧
      ((∀ rev ∈ inp.reviews, 1 ≤ rev.stars) →
        r.review_count = (inp.reviews.filter fun rev => decide (1 ≤ rev.stars)).length) := by
  rw [processRecording] at h
  split at h
  · exact absurd h (by simp)
  · cases hnd : normalize_date inp.date with
    | none => rw [hnd] at h; exact absurd h (by simp)
    | some nd =>
      rw [hnd] at h
      simp only at h
      split at h
      · exact absurd h (by simp)
      · injection h with h
        injection h with hk hr
        rw [← hr]
        refine ⟨rfl, fun hall => ?_⟩
        have : inp.reviews.filter (fun rev => decide (1 ≤ rev.stars)) = inp.reviews :=
          List.filter_eq_self.mpr fun a ha => by simpa using hall a ha
        rw [this]

/-- Witness for C3 at the concrete pipeline input `inpC3w`. -/
theorem claim_C3_witness :
    rC3w.review_count = inpC3w.reviews.length ∧
      ((∀ rev ∈ inpC3w.reviews, 1 ≤ rev.stars) →
        rC3w.review_count = (inpC3w.reviews.filter fun rev => decide (1 ≤ rev.stars)).length) :=
  claim_C3 inpC3w "1977-05-08_V" rC3w procC3w

/-- Counterexample to claim C4 as stated: in `batchC4` the below-threshold
recording `R2` does not contribute to the show-level weighted average —
the pipeline's show average is `5` (over `R1` alone) while the average
over all of the show's recordings would be `2647/570`. -/
theorem claim_C4_counterexample :
    (showRatingAt batchC4 kC4).map ShowRating.avg_rating = some 5 ∧
      specShowAvgAll batchC4 kC4 = 2647/570 ∧
      (5 : ℚ) ≠ 2647/570 := by
  refine ⟨?_, ?_, by norm_num⟩
  · rw [showRatingAt, groupC4, compute_show_rating]
    simp [recWeight, rHigh, sourceWeight]
    try norm_num
  · rw [specShowAvgAll, groupAllC4, weightedAvg]
    simp [recWeight, rHigh, rLow, sourceWeight]
    norm_num

/-- Claim C4 (amended): the recording-level inclusion threshold is applied
at scoring time, before grouping — for every batch and show key, the
grouped recordings are exactly the threshold-free group filtered to
scores at or above `5/2`, and the show-level average is the weighted
average over that thresholded group only. -/
theorem claim_C4 (batch : List RecordingInput) (k : String) :
    showGroup batch k = ((showGroupAll batch k).filter fun r => decide (5/2 ≤ r.avg_rating)) ∧
      ∀ s : ShowRating, showRatingAt batch k = some s →
        s.avg_rating = weightedAvg (showGroup batch k) := by
  constructor
  · rw [showGroup, showGroupAll, pipelineRecordings_eq]
    rw [List.filter_comm]
    rw [List.filter_map]
    rfl
  · intro s hs
    rw [showRatingAt] at hs
    cases hg : showGroup batch k with
    | nil => rw [hg] at hs; exact absurd hs (by simp [compute_show_rating])
    | cons x xs =>
      rw [hg] at hs
      rw [compute_show_rating] at hs
      injection hs with hs
      rw [← hs]
      rfl

/-- Witness for C4 at the concrete batch `batchC4`. -/
theorem claim_C4_witness :
    showGroup batchC4 kC4 =
        ((showGroupAll batchC4 kC4).filter fun r => decide (5/2 ≤ r.avg_rating)) ∧
      ((showRatingAt batchC4 kC4).map ShowRating.avg_rating =
        some (weightedAvg (showGroup batchC4 kC4))) := by
  refine ⟨(claim_C4 batchC4 kC4).1, ?_⟩
  cases hs : showRatingAt batchC4 kC4 with
  | none =>
    rw [showRatingAt, groupC4, compute_show_rating] at hs
    exact absurd hs (by simp)
  | some s =>
    rw [Option.map, (claim_C4 batchC4 kC4).2 s hs]

end Dead
